import Mathlib

/-
Verification development for the joint embedding-refinement / mixture-clustering
core of the `com_emb` notebook (community embedding on the Cora citation graph).

The tensor-level functions of the notebook are shallowly embedded over exact
rationals.  A tensor is a list of rows (`Matrix`); a tensor entry that torch
would render non-finite (NaN from 0/0, or an infinity from division by zero) is
modelled as `none` in `Option ℚ`.  Python-level exceptions (NameError,
ValueError, shape mismatches) are modelled with `Except String`.
-/

namespace ComEmb

/-! ### Constants (notebook cell `Constants`) -/

def Ddim : ℕ := 400

def Kglobal : ℕ := 7

def eps : ℚ := 1 / 1000000

def beta : ℚ := 1 / 10000

/-! ### Basic tensor machinery -/

/-- A dense 2-d tensor of finite values: a list of rows. -/
abbrev Matrix := List (List ℚ)

/-- A tensor entry that may be non-finite: `none` models a NaN or infinity
produced by torch division by zero.  In every code path modelled here the
numerator of such a division is itself zero, so the value is a NaN. -/
abbrev QN := Option ℚ

/-- torch division on entries: division by zero yields a non-finite value
(`none`), otherwise the exact quotient. -/
def dv (a d : ℚ) : QN := if d = 0 then none else some (a / d)

/-- Minimum of all entries of a nonempty list (`torch.min` over a tensor);
defaults to 0 on the empty tensor, which no modelled call site produces. -/
def listMinD : List ℚ → ℚ
  | [] => 0
  | a :: r => r.foldl min a

/-- Maximum of all entries (`torch.max`), same convention as `listMinD`. -/
def listMaxD : List ℚ → ℚ
  | [] => 0
  | a :: r => r.foldl max a

/-! ### `normalize` (notebook cell `Utility functions`)

```
def normalize(v):
    min_v = torch.min(v)
    range_v = torch.max(v) - min_v
    if range_v > 0:
        return (v - min_v) / range_v
    else:
        return torch.zeros(vector.size())
```

The else branch references the undefined name `vector`, so at runtime it raises
`NameError` instead of returning a zero tensor. -/

def normalize (v : Matrix) : Except String Matrix :=
  let min_v := listMinD v.flatten
  let range_v := listMaxD v.flatten - min_v
  if 0 < range_v then
    Except.ok (v.map (fun row => row.map (fun t => (t - min_v) / range_v)))
  else
    Except.error "NameError: name vector is not defined"

/-- Claim C2: the claim asserts that `normalize` of an all-equal tensor returns
an all-zero tensor without raising; on the source, the degenerate branch
references the undefined name `vector` and raises a NameError instead.  This
theorem evaluates the embedded `normalize` at the failing input `[[1, 1, 1]]`
(an all-equal tensor) and records the raised error. -/
theorem c2_normalize_raises_on_constant_input :
    normalize [[1, 1, 1]] = Except.error "NameError: name vector is not defined" := by
  with_unfolding_all rfl

/-! ### K-Means (notebook cell `K-Means`)

```
def KMeans(x, K, Niter=10, verbose=False):
    N, D = x.shape
    c     = x[:K, :].clone().detach()
    x_i   = torch.clone(x[:, None, :]).detach()
    for i in range(Niter):
        c_j  = torch.clone(c[None, :, :]).detach()
        D_ij = ((x_i - c_j) ** 2).sum(-1)
        cl   = D_ij.argmin(dim=1).long().view(-1)
        pi   = 1 - normalize(D_ij)
        Ncl = torch.bincount(cl).float()
        for d in range(D):
            c[:, d] = torch.bincount(cl, weights=x[:, d]) / Ncl
    return cl, pi
```
-/

/-- Squared Euclidean distance between two vectors (one entry of `D_ij`). -/
def sqdist (a b : List ℚ) : ℚ := (List.zipWith (fun s t => (s - t) * (s - t)) a b).sum

/-- The M-by-K matrix of squared distances `D_ij`. -/
def distMatrix (x c : Matrix) : Matrix := x.map (fun xi => c.map (fun cj => sqdist xi cj))

/-- `torch.argmin` along a row: index of the first occurrence of the minimum
(ties are broken towards the lowest index). -/
def argminIdx : List ℚ → ℕ
  | [] => 0
  | [_] => 0
  | a :: b :: rest =>
    let j := argminIdx (b :: rest)
    if a ≤ (b :: rest).getD j 0 then 0 else j + 1

/-- `D_ij.argmin(dim=1)`: hard assignment of each sample to its nearest
centroid. -/
def hardAssign (Dm : Matrix) : List ℕ := Dm.map argminIdx

/-- Length of the result of `torch.bincount`: one slot per value up to the
largest occurring class index (`max + 1`; the empty input gives length 0). -/
def bcLen (cl : List ℕ) : ℕ := cl.foldr (fun a m => max (a + 1) m) 0

/-- `torch.bincount(cl)`: occurrence counts of the class labels. -/
def bincount (cl : List ℕ) : List ℕ := (List.range (bcLen cl)).map (fun k => cl.count k)

/-- `torch.bincount(cl, weights=w)`: per-class sums of the weights. -/
def bincountW (cl : List ℕ) (w : List ℚ) : List ℚ :=
  (List.range (bcLen cl)).map
    (fun k => (List.zipWith (fun cls wi => if cls = k then wi else 0) cl w).sum)

/-- Column `d` of a matrix (`x[:, d]`). -/
def col (x : Matrix) (d : ℕ) : List ℚ := x.map (fun row => row.getD d 0)

/-- Number of columns of a matrix (its rows all share this length at every
modelled call site). -/
def dimOf (x : Matrix) : ℕ := (x.headD []).length

/-- The centroid-update loop `c[:, d] = torch.bincount(cl, weights=x[:, d]) / Ncl`.
`torch.bincount` returns a vector of length `max(cl) + 1`, and the in-place
slice assignment broadcasts it against the length-`K` column of `c`:
a length-`K` result is written elementwise (a class with zero members then
divides `0 / 0` and its centroid entries become NaN, `none`); a length-1
result (every sample assigned to class 0) is broadcast across all `K` rows,
silently overwriting every centroid with the overall per-dimension mean; any
other length cannot broadcast and the assignment raises a shape-mismatch
error. -/
def updateCentroids (cl : List ℕ) (x : Matrix) (K : ℕ) : Except String (List (List QN)) :=
  let Ncl := bincount cl
  if Ncl.length = K then
    Except.ok ((List.range K).map (fun k =>
      (List.range (dimOf x)).map (fun d =>
        dv ((bincountW cl (col x d)).getD k 0) ((Ncl.getD k 0 : ℕ) : ℚ))))
  else if Ncl.length = 1 then
    Except.ok ((List.range K).map (fun _ =>
      (List.range (dimOf x)).map (fun d =>
        dv ((bincountW cl (col x d)).getD 0 0) ((Ncl.getD 0 0 : ℕ) : ℚ))))
  else
    Except.error "RuntimeError: output with shape does not match the broadcast shape"

/-- A row of possibly-NaN entries is finite when every entry is. -/
def seqRow (r : List QN) : Option (List ℚ) := r.mapM id

/-- A matrix of possibly-NaN entries, as a finite matrix when every entry is. -/
def seqMatrix (m : List (List QN)) : Option Matrix := m.mapM seqRow

/-- `1 - normalize(D_ij)`: the soft-affinity matrix. -/
def oneMinus (m : Matrix) : Matrix := m.map (fun row => row.map (fun t => 1 - t))

/-- One iteration of the K-Means loop body: distances, hard assignment, soft
affinity, centroid update.  A NaN entering the centroids is reported as an
error here (the later behavior of argmin on NaN distances is unspecified in
torch and the training loop runs under `autograd.detect_anomaly`, which aborts
on the first NaN); no theorem below depends on iterations past that point. -/
def kmeansStep (x : Matrix) (K : ℕ) (c : Matrix) :
    Except String (List ℕ × Matrix × Matrix) :=
  let Dij := distMatrix x c
  let cl := hardAssign Dij
  match normalize Dij with
  | Except.error e => Except.error e
  | Except.ok nrm =>
    match updateCentroids cl x K with
    | Except.error e => Except.error e
    | Except.ok cQ =>
      match seqMatrix cQ with
      | none => Except.error "NumericalInstability: NaN in cluster centroids"
      | some c2 => Except.ok (cl, oneMinus nrm, c2)

/-- The `for i in range(Niter)` loop; returns the assignment and soft affinity
computed in the final iteration (the final centroid update still runs, as in
the source). -/
def kmeansLoop (x : Matrix) (K : ℕ) :
    ℕ → Matrix → List ℕ × Matrix → Except String (List ℕ × Matrix)
  | 0, _, last => Except.ok last
  | n + 1, c, _ =>
    match kmeansStep x K c with
    | Except.error e => Except.error e
    | Except.ok (cl, pi, c2) => kmeansLoop x K n c2 (cl, pi)

/-- `KMeans(x, K, Niter)`: centroids start as the first `K` rows of the batch. -/
def KMeans (x : Matrix) (K : ℕ) (Niter : ℕ := 10) : Except String (List ℕ × Matrix) :=
  kmeansLoop x K Niter (x.take K) ([], [])

/-- `argminIdx` returns a valid index of a row minimum, and every earlier index
holds a strictly larger value (first-occurrence tie-break). -/
theorem argminIdx_spec (l : List ℚ) (hl : l ≠ []) :
    argminIdx l < l.length ∧
    (∀ t < l.length, l.getD (argminIdx l) 0 ≤ l.getD t 0) ∧
    (∀ t < argminIdx l, l.getD (argminIdx l) 0 < l.getD t 0) := by
  induction l with
  | nil => exact absurd rfl hl
  | cons a tail ih =>
    cases tail with
    | nil =>
      refine ⟨by simp [argminIdx], ?_, ?_⟩
      · intro t ht
        have ht0 : t = 0 := by simpa using ht
        subst ht0
        simp [argminIdx]
      · intro t ht
        simp [argminIdx] at ht
    | cons b rest =>
      obtain ⟨ih1, ih2, ih3⟩ := ih (by simp)
      have hstep : argminIdx (a :: b :: rest) =
          if a ≤ (b :: rest).getD (argminIdx (b :: rest)) 0 then 0
          else argminIdx (b :: rest) + 1 := rfl
      by_cases hcmp : a ≤ (b :: rest).getD (argminIdx (b :: rest)) 0
      · have hsel : argminIdx (a :: b :: rest) = 0 := by
          rw [hstep, if_pos hcmp]
        refine ⟨by simp [hsel], ?_, ?_⟩
        · intro t ht
          cases t with
          | zero => simp [hsel]
          | succ t' =>
            have ht' : t' < (b :: rest).length := by
              simpa using Nat.lt_of_succ_lt_succ ht
            calc (a :: b :: rest).getD (argminIdx (a :: b :: rest)) 0 = a := by
                  simp [hsel]
              _ ≤ (b :: rest).getD (argminIdx (b :: rest)) 0 := hcmp
              _ ≤ (b :: rest).getD t' 0 := ih2 t' ht'
              _ = (a :: b :: rest).getD (t' + 1) 0 := by simp
        · intro t ht
          rw [hsel] at ht
          omega
      · push_neg at hcmp
        have hsel : argminIdx (a :: b :: rest) = argminIdx (b :: rest) + 1 := by
          rw [hstep, if_neg (not_le.mpr hcmp)]
        refine ⟨?_, ?_, ?_⟩
        · rw [hsel]
          simpa using ih1
        · intro t ht
          cases t with
          | zero =>
            simp only [hsel, List.getD_cons_succ, List.getD_cons_zero]
            exact le_of_lt hcmp
          | succ t' =>
            have ht' : t' < (b :: rest).length := by
              simpa using Nat.lt_of_succ_lt_succ ht
            simp only [hsel, List.getD_cons_succ]
            exact ih2 t' ht'
        · intro t ht
          rw [hsel] at ht
          cases t with
          | zero =>
            simp only [hsel, List.getD_cons_succ, List.getD_cons_zero]
            exact hcmp
          | succ t' =>
            simp only [hsel, List.getD_cons_succ]
            exact ih3 t' (Nat.lt_of_succ_lt_succ ht)

/-- Claim C8: the hard assignment of each sample is the column index of its
row-minimum in the distance matrix, with ties broken towards the lowest column
index (every strictly earlier column holds a strictly larger distance). -/
theorem c8_hard_assignment_first_argmin (Dm : Matrix) (i : ℕ)
    (hrow : Dm.getD i [] ≠ []) :
    (hardAssign Dm).getD i 0 = argminIdx (Dm.getD i []) ∧
    argminIdx (Dm.getD i []) < (Dm.getD i []).length ∧
    (∀ t < (Dm.getD i []).length,
      (Dm.getD i []).getD (argminIdx (Dm.getD i [])) 0 ≤ (Dm.getD i []).getD t 0) ∧
    (∀ t < argminIdx (Dm.getD i []),
      (Dm.getD i []).getD (argminIdx (Dm.getD i [])) 0 < (Dm.getD i []).getD t 0) := by
  have hi : i < Dm.length := by
    by_contra hge
    exact hrow (List.getD_eq_default _ _ (by omega))
  have hmap : (hardAssign Dm).getD i 0 = argminIdx (Dm.getD i []) := by
    unfold hardAssign
    rw [List.getD_eq_getElem _ _ (by simpa using hi), List.getD_eq_getElem _ _ hi]
    simp
  exact ⟨hmap, argminIdx_spec _ hrow⟩

/-- Witness for C8 at the concrete distance row `[3, 1, 1, 2]`: the assignment
picks column 1, the first of the two tied minima. -/
theorem c8_witness :
    ([[3, 1, 1, 2]] : Matrix).getD 0 [] ≠ [] ∧
    ((hardAssign [[3, 1, 1, 2]]).getD 0 0 = argminIdx (([[3, 1, 1, 2]] : Matrix).getD 0 []) ∧
     argminIdx (([[3, 1, 1, 2]] : Matrix).getD 0 []) < (([[3, 1, 1, 2]] : Matrix).getD 0 []).length ∧
     (∀ t < (([[3, 1, 1, 2]] : Matrix).getD 0 []).length,
       (([[3, 1, 1, 2]] : Matrix).getD 0 []).getD
           (argminIdx (([[3, 1, 1, 2]] : Matrix).getD 0 [])) 0 ≤
         (([[3, 1, 1, 2]] : Matrix).getD 0 []).getD t 0) ∧
     (∀ t < argminIdx (([[3, 1, 1, 2]] : Matrix).getD 0 []),
       (([[3, 1, 1, 2]] : Matrix).getD 0 []).getD
           (argminIdx (([[3, 1, 1, 2]] : Matrix).getD 0 [])) 0 <
         (([[3, 1, 1, 2]] : Matrix).getD 0 []).getD t 0)) :=
  ⟨by simp, c8_hard_assignment_first_argmin [[3, 1, 1, 2]] 0 (by simp)⟩

/-- Claim C6, counterexample: on the batch `[[0], [0], [3]]` with `K = 2`,
the two duplicate leading points make every sample assign to cluster 0, so
cluster 1 receives zero members in every iteration — yet nothing divides by a
zero count and no NaN is propagated: `torch.bincount` returns a length-1
vector, the slice assignment broadcasts it across both centroid rows
(silently producing the valid finite centroid `1`, the overall mean, for the
empty cluster), and the whole 10-iteration `KMeans` run succeeds.  The final
conjunct records the only genuinely failing shape: a bincount length strictly
between 1 and `K` (here clusters `{0, 1}` occupied with `K = 3`) cannot
broadcast and raises a shape-mismatch error instead of yielding NaN. -/
theorem c6_counterexample_empty_cluster_no_nan :
    updateCentroids [0, 0, 0] [[0], [0], [3]] 2 = Except.ok [[some 1], [some 1]] ∧
    ([0, 0, 0].count 1 = 0 ∧ 1 < 2) ∧
    KMeans [[0], [0], [3]] 2 10 = Except.ok ([0, 0, 0], [[1, 1], [1, 1], [0, 0]]) ∧
    KMeans [[0], [4], [0]] 3 10 =
      Except.error "RuntimeError: output with shape does not match the broadcast shape" := by
  refine ⟨?_, ⟨?_, ?_⟩, ?_, ?_⟩
  · with_unfolding_all rfl
  · with_unfolding_all rfl
  · decide
  · with_unfolding_all rfl
  · with_unfolding_all rfl

/-- Claim C6, amended: when an empty cluster `j` lies strictly below the
largest assigned index (so `torch.bincount` has length `K` and its result is
written into the centroid column elementwise), its centroid entries are
recomputed as `0 / 0` and become NaN. -/
theorem c6_amended_interior_empty_cluster_nan (cl : List ℕ) (x : Matrix) (K j : ℕ)
    (hj : j < K) (hempty : j ∉ cl) (hlen : bcLen cl = K) :
    (updateCentroids cl x K).map (fun m => (m.getD j []).all (fun e => e.isNone)) =
      Except.ok true := by
  have hbc : (bincount cl).length = K := by simp [bincount, hlen]
  unfold updateCentroids
  rw [if_pos hbc]
  have hget : ((List.range K).map (fun k =>
      (List.range (dimOf x)).map (fun d =>
        dv ((bincountW cl (col x d)).getD k 0) (((bincount cl).getD k 0 : ℕ) : ℚ)))).getD j []
      = (List.range (dimOf x)).map (fun d =>
        dv ((bincountW cl (col x d)).getD j 0) (((bincount cl).getD j 0 : ℕ) : ℚ)) := by
    rw [List.getD_eq_getElem _ _ (by simpa using hj)]
    simp
  have hcount : (bincount cl).getD j 0 = 0 := by
    have hjlen : j < (bincount cl).length := by rw [hbc]; exact hj
    rw [List.getD_eq_getElem _ _ hjlen]
    simp [bincount, List.count_eq_zero.mpr hempty]
  simp only [Except.map, hget, hcount]
  simp [dv, List.all_eq_true]

/-- Witness for C6 (amended) at `cl = [0, 0, 2]`, `K = 3`: cluster 1 is empty
and interior, and its recomputed centroid is entirely NaN. -/
theorem c6_amended_witness :
    1 < 3 ∧ 1 ∉ [0, 0, 2] ∧ bcLen [0, 0, 2] = 3 ∧
    (updateCentroids [0, 0, 2] [[1], [2], [3]] 3).map
        (fun m => (m.getD 1 []).all (fun e => e.isNone)) = Except.ok true :=
  ⟨by decide, by decide, by decide,
    c6_amended_interior_empty_cluster_nan [0, 0, 2] [[1], [2], [3]] 3 1
      (by decide) (by decide) (by decide)⟩

/-! ### `compute_gamma` (notebook cell `Community Embedding`)

```
def compute_gamma(pi, probs):
    gamma_numerator   = pi * probs
    gamma_denominator = torch.sum(gamma_numerator, dim=1, keepdim=True)
    return torch.div(gamma_numerator, gamma_denominator)
```

`pi` is either a full M-by-K matrix (the K-Means soft affinity) or a 1-by-K
row that torch broadcasts against `probs`. -/

/-- NaN-propagating addition on tensor entries. -/
def qadd : QN → QN → QN
  | some a, some b => some (a + b)
  | _, _ => none

/-- NaN-propagating sum of tensor entries. -/
def qsum (l : List QN) : QN := l.foldr qadd (some 0)

/-- A row's gamma denominator `sum_k (pi * probs)`. -/
def rowDenom (pr pb : List ℚ) : ℚ := (List.zipWith (· * ·) pr pb).sum

/-- One row of `compute_gamma`: elementwise `pi * probs` divided by the row
sum (NaN when the row sum is zero). -/
def gammaRow (pr pb : List ℚ) : List QN :=
  (List.zipWith (· * ·) pr pb).map (fun a => dv a (rowDenom pr pb))

/-- `compute_gamma(pi, probs)` with torch broadcasting of a single-row `pi`. -/
def compute_gamma (pi probs : Matrix) : List (List QN) :=
  if pi.length = 1 then probs.map (fun pb => gammaRow (pi.headD []) pb)
  else List.zipWith gammaRow pi probs

/-- The per-row denominators of `compute_gamma(pi, probs)`. -/
def gammaDenoms (pi probs : Matrix) : List ℚ :=
  if pi.length = 1 then probs.map (fun pb => rowDenom (pi.headD []) pb)
  else List.zipWith rowDenom pi probs

lemma qsum_map_some (l : List ℚ) : qsum (l.map some) = some l.sum := by
  induction l with
  | nil => rfl
  | cons a r ih =>
    show qadd (some a) (qsum (r.map some)) = some ((a :: r).sum)
    rw [ih]
    show some (a + r.sum) = some ((a :: r).sum)
    rw [List.sum_cons]

lemma zipWith_mul_pos (u : List ℚ) :
    ∀ (v : List ℚ), (∀ a ∈ u, 0 < a) → (∀ b ∈ v, 0 < b) →
      ∀ c ∈ List.zipWith (fun s t => s * t) u v, 0 < c := by
  induction u with
  | nil => intro v _ _ c hc; simp at hc
  | cons a u' ih =>
    intro v hu hv c hc
    cases v with
    | nil => simp at hc
    | cons b v' =>
      simp only [List.zipWith_cons_cons, List.mem_cons] at hc
      rcases hc with hc | hc
      · subst hc
        exact mul_pos (hu a (by simp)) (hv b (by simp))
      · exact ih v' (fun x hx => hu x (by simp [hx])) (fun y hy => hv y (by simp [hy])) c hc

lemma sum_map_div (l : List ℚ) (d : ℚ) : (l.map (fun a => a / d)).sum = l.sum / d := by
  induction l with
  | nil => simp
  | cons a r ih => simp [ih, add_div]

/-- Claim C9: for a strictly positive mixing-weight row `pi` broadcast against
a strictly positive posterior matrix, every row of `compute_gamma` sums to 1
within `1e-5` (in exact arithmetic it sums to exactly 1). -/
theorem c9_gamma_rows_sum_to_one (pi0 : List ℚ) (probs : Matrix)
    (hpi : ∀ a ∈ pi0, 0 < a) (hpos : ∀ row ∈ probs, ∀ a ∈ row, 0 < a)
    (hlen : ∀ row ∈ probs, pi0.length ≤ row.length) (hK : pi0 ≠ []) :
    ∀ grow ∈ compute_gamma [pi0] probs, ∃ s : ℚ,
      qsum grow = some s ∧ |s - 1| ≤ 1 / 100000 := by
  intro grow hgrow
  have hbr : compute_gamma [pi0] probs = probs.map (fun pb => gammaRow pi0 pb) := by
    simp [compute_gamma]
  rw [hbr] at hgrow
  obtain ⟨pb, hpb, rfl⟩ := List.mem_map.mp hgrow
  have hnum_pos : ∀ c ∈ List.zipWith (fun s t => s * t) pi0 pb, 0 < c :=
    zipWith_mul_pos pi0 pb hpi (hpos pb hpb)
  have hne : List.zipWith (fun s t => s * t) pi0 pb ≠ [] := by
    have : pi0.length ≤ pb.length := hlen pb hpb
    cases pi0 with
    | nil => exact absurd rfl hK
    | cons a u =>
      cases pb with
      | nil => simp at this
      | cons b v => simp
  have hS : 0 < rowDenom pi0 pb := by
    unfold rowDenom
    exact List.sum_pos _ hnum_pos hne
  refine ⟨1, ?_, by norm_num⟩
  have hdv : ∀ a ∈ List.zipWith (fun s t => s * t) pi0 pb,
      dv a (rowDenom pi0 pb) = some (a / rowDenom pi0 pb) := by
    intro a _
    simp [dv, ne_of_gt hS]
  unfold gammaRow
  rw [show (List.zipWith (· * ·) pi0 pb) = List.zipWith (fun s t => s * t) pi0 pb from rfl]
  rw [List.map_congr_left hdv]
  rw [show (fun a => some (a / rowDenom pi0 pb)) =
        (some ∘ fun a => a / rowDenom pi0 pb) from rfl]
  rw [← List.map_map, qsum_map_some, sum_map_div]
  rw [show (List.zipWith (fun s t => s * t) pi0 pb).sum = rowDenom pi0 pb from rfl]
  rw [div_self (ne_of_gt hS)]

/-- Witness for C9 with `pi = [1/2, 1/2]` and two strictly positive posterior
rows. -/
theorem c9_witness :
    (∀ a ∈ [(1 : ℚ)/2, 1/2], 0 < a) ∧
    (∀ grow ∈ compute_gamma [[(1 : ℚ)/2, 1/2]] [[1/4, 3/4], [1/2, 1/2]], ∃ s : ℚ,
      qsum grow = some s ∧ |s - 1| ≤ 1 / 100000) :=
  ⟨by norm_num,
    c9_gamma_rows_sum_to_one [(1 : ℚ)/2, 1/2] [[1/4, 3/4], [1/2, 1/2]]
      (by norm_num) (by norm_num) (by norm_num) (by simp)⟩

/-! ### Claim C7: gamma denominators under the eps-clamp

The clamp makes every posterior entry at least `eps`, but the K-Means soft
affinity `pi = 1 - normalize(D_ij)` can contain an all-zero row: that happens
exactly when a sample's distances to every centroid all equal the global
maximum of the distance matrix.  The batch `x7` below reaches a fixed point of
the K-Means iteration in which sample 2 (the point `(1, 3)`) is equidistant
from both final centroids `(0, 0)` and `(2, 0)` at the global maximum squared
distance 10, so its affinity row is `[0, 0]` and its gamma denominator is zero
despite the clamp. -/

/-- Concrete batch for the C7 counterexample (M = 7 samples, 2 dimensions). -/
def x7 : Matrix :=
  [[0, 0], [2, 0], [1, 3], [-1/2, -3/2], [-1/2, -3/2], [2, 1], [2, -1]]

/-- Posteriors for the C7 counterexample: every entry equals `eps`, the
smallest value the clamp permits. -/
def probs7 : Matrix := List.replicate 7 [eps, eps]

set_option maxRecDepth 100000 in
/-- Claim C7, counterexample: a full `KMeans` run (default 10 iterations,
`K = 2`) on the batch `x7` succeeds and returns a soft affinity whose row 2 is
all-zero, so the gamma denominator of that row is 0 even though every
posterior entry is at least `eps`.  The row-wise division in `compute_gamma`
therefore divides by a zero row-sum. -/
theorem c7_counterexample_zero_denominator :
    (KMeans x7 2 10).map (fun r => (gammaDenoms r.2 probs7).getD 2 1) = Except.ok 0 ∧
    probs7.all (fun row => row.all (fun a => decide (eps ≤ a))) = true := by
  constructor
  · with_unfolding_all rfl
  · with_unfolding_all rfl

/-- Claim C7, amended: the eps-clamp alone does not make the denominators
nonzero; the correct guarantee is per row: if the row of `pi` is nonnegative
and has at least one strictly positive entry within range of the posterior
row (whose entries are at least `eps`), then that row's denominator is
strictly positive. -/
lemma zipWith_mul_nonneg (u : List ℚ) :
    ∀ (v : List ℚ), (∀ a ∈ u, 0 ≤ a) → (∀ b ∈ v, 0 ≤ b) →
      ∀ c ∈ List.zipWith (fun s t => s * t) u v, 0 ≤ c := by
  induction u with
  | nil => intro v _ _ c hc; simp at hc
  | cons a u' ih =>
    intro v hu hv c hc
    cases v with
    | nil => simp at hc
    | cons b v' =>
      simp only [List.zipWith_cons_cons, List.mem_cons] at hc
      rcases hc with hc | hc
      · subst hc
        exact mul_nonneg (hu a (by simp)) (hv b (by simp))
      · exact ih v' (fun x hx => hu x (by simp [hx])) (fun y hy => hv y (by simp [hy])) c hc

theorem c7_amended_denominator_positive (pr pb : List ℚ) (i : ℕ)
    (hnn : ∀ a ∈ pr, 0 ≤ a) (hpb : ∀ b ∈ pb, eps ≤ b)
    (hi : i < pr.length) (hi' : i < pb.length) (hpos : 0 < pr.getD i 0) :
    0 < rowDenom pr pb := by
  induction pr generalizing pb i with
  | nil => simp at hi
  | cons a u ih =>
    cases pb with
    | nil => simp at hi'
    | cons b v =>
      have hb : eps ≤ b := hpb b (by simp)
      have hbpos : 0 < b := lt_of_lt_of_le (by norm_num [eps]) hb
      have hDrow : rowDenom (a :: u) (b :: v) = a * b + rowDenom u v := by
        simp [rowDenom]
      rw [hDrow]
      have hv_nn : ∀ y ∈ v, (0:ℚ) ≤ y := by
        intro y hy
        exact le_trans (by norm_num [eps]) (hpb y (by simp [hy]))
      have htail_nn : 0 ≤ rowDenom u v := by
        apply List.sum_nonneg
        exact zipWith_mul_nonneg u v (fun x hx => hnn x (by simp [hx])) hv_nn
      cases i with
      | zero =>
        have ha : 0 < a := by simpa using hpos
        have : 0 < a * b := mul_pos ha hbpos
        linarith
      | succ t =>
        have ha_nn : 0 ≤ a := hnn a (by simp)
        have : 0 < rowDenom u v :=
          ih v t (fun x hx => hnn x (List.mem_cons_of_mem _ hx))
            (fun y hy => hpb y (List.mem_cons_of_mem _ hy))
            (by simpa using Nat.lt_of_succ_lt_succ hi)
            (by simpa using Nat.lt_of_succ_lt_succ hi')
            (by simpa using hpos)
        have hab : 0 ≤ a * b := mul_nonneg ha_nn (le_of_lt hbpos)
        linarith

/-- Witness for C7 (amended) at `pi`-row `[0, 1/2]` and posterior row
`[eps, eps]`: entry 1 of the affinity row is positive, so the denominator is
positive. -/
theorem c7_amended_witness :
    (∀ a ∈ [(0 : ℚ), 1/2], 0 ≤ a) ∧ (∀ b ∈ [eps, eps], eps ≤ b) ∧
    (0 : ℚ) < [(0 : ℚ), 1/2].getD 1 0 ∧ 0 < rowDenom [(0 : ℚ), 1/2] [eps, eps] :=
  ⟨by norm_num, by norm_num, by norm_num,
    c7_amended_denominator_positive [(0 : ℚ), 1/2] [eps, eps] 1
      (by norm_num) (by norm_num) (by norm_num) (by norm_num) (by norm_num)⟩

/-! ### `compute_loss` (notebook cell `Community Embedding`)

```
def compute_loss(model, gmm, X_batch, pi, psi, Sigma):
    X = model(X_batch)
    probs = torch.FloatTensor(gmm.predict_proba(X)).clamp(min=eps)
    gamma = compute_gamma(pi, probs)
    N     = gamma.sum(dim=0, keepdim=True)
    pi    = N / X_batch.size(0)
    gmm.fit(X.numpy())
    psi   = torch.FloatTensor(gmm.means_)
    Sigma = torch.FloatTensor(gmm.covariances_)
    loss  = -(beta / K) * torch.sum(torch.sum(torch.log(pi * probs), dim=1, keepdim=True))
    return psi, Sigma, loss
```

The Gaussian-mixture library (`sklearn.mixture.GaussianMixture`) is an
external dependency, embedded as an abstract interface: a state type with a
`fit` that produces a new fitted state and a `predict_proba`, `means_`,
`covariances_` reading a state.  `torch.log` is likewise abstracted as a
function parameter `logf`.  The embedding is parametric in the component
count `Kn`, which stands for the notebook-global constant `K`. -/

/-- Abstract interface of the external `sklearn` Gaussian-mixture model. -/
structure GMM (σ : Type) where
  predict_proba : σ → Matrix → Matrix
  fit : Matrix → σ
  means_ : σ → Matrix
  covariances_ : σ → Matrix

/-- `.clamp(min=m)`: elementwise lower clamp. -/
def clampMin (m : ℚ) (X : Matrix) : Matrix := X.map (fun row => row.map (fun a => max a m))

/-- NaN-propagating multiplication on tensor entries. -/
def qmul : QN → QN → QN
  | some a, some b => some (a * b)
  | _, _ => none

/-- Number of columns of a possibly-NaN matrix. -/
def numCols (m : List (List QN)) : ℕ := (m.headD []).length

/-- `gamma.sum(dim=0)`: column sums of the (possibly NaN) gamma matrix. -/
def colSumQ (m : List (List QN)) : List QN :=
  (List.range (numCols m)).map (fun k => qsum (m.map (fun row => row.getD k (some 0))))

/-- Result of one `compute_loss` call: the returned `(psi, Sigma, loss)`
triple together with the mixture state left behind by the in-place
`gmm.fit`. -/
structure LossOut (σ : Type) where
  psi : Matrix
  Sigma : Matrix
  loss : QN
  gmmState : σ

/-- Shallow embedding of `compute_loss`.  Note the order of operations, as in
the source: the posteriors `probs` are computed from the incoming mixture
state `g`, and `gmm.fit` runs afterwards, producing the state returned in
`gmmState`. -/
def compute_loss {σ : Type} (logf : ℚ → ℚ) (gmmI : GMM σ) (model : Matrix → Matrix)
    (g : σ) (X_batch : Matrix) (pi0 : Matrix) (Kn : ℕ) : LossOut σ :=
  let X := model X_batch
  let probs := clampMin eps (gmmI.predict_proba g X)
  let gamma := compute_gamma pi0 probs
  let Nk := colSumQ gamma
  let piNew := Nk.map (Option.map (fun q => q / (X_batch.length : ℚ)))
  let g2 := gmmI.fit X
  let loss := qmul (some (-(beta / (Kn : ℚ))))
    (qsum (probs.map (fun row =>
      qsum ((List.zipWith (fun pk pik => qmul pk (some pik)) piNew row).map
        (Option.map logf)))))
  { psi := gmmI.means_ g2, Sigma := gmmI.covariances_ g2, loss := loss, gmmState := g2 }

/-- The posteriors `compute_loss` actually feeds into gamma and the loss:
predicted from the incoming mixture state, then clamped. -/
def preRefitProbs {σ : Type} (gmmI : GMM σ) (model : Matrix → Matrix)
    (g : σ) (X_batch : Matrix) : Matrix :=
  clampMin eps (gmmI.predict_proba g (model X_batch))

/-- Modelled from the spec: the posteriors as the claim describes them,
"recompute posteriors" after "refit MixtureModel on that output" — predicted
from the state refit on the current batch's network output. -/
def postRefitProbs {σ : Type} (gmmI : GMM σ) (model : Matrix → Matrix)
    (X_batch : Matrix) : Matrix :=
  clampMin eps (gmmI.predict_proba (gmmI.fit (model X_batch)) (model X_batch))

/-- The gamma → N → pi → loss tail of `compute_loss` as a function of the
posterior matrix it consumes. -/
def lossFromProbs (logf : ℚ → ℚ) (Kn M : ℕ) (pi0 probs : Matrix) : QN :=
  let gamma := compute_gamma pi0 probs
  let Nk := colSumQ gamma
  let piNew := Nk.map (Option.map (fun q => q / (M : ℚ)))
  qmul (some (-(beta / (Kn : ℚ))))
    (qsum (probs.map (fun row =>
      qsum ((List.zipWith (fun pk pik => qmul pk (some pik)) piNew row).map
        (Option.map logf)))))

/-- Claim C1, amended: in `compute_loss` the refit happens after the
posteriors are computed.  The loss is a function of the posteriors predicted
from the incoming mixture state (the state fit on the previous batch's
output, or the initial whole-dataset fit), and the state refit on the current
batch's network output is only returned for use by later batches. -/
theorem c1_amended_refit_after_posteriors {σ : Type} (logf : ℚ → ℚ) (gmmI : GMM σ)
    (model : Matrix → Matrix) (g : σ) (X_batch : Matrix) (pi0 : Matrix) (Kn : ℕ) :
    (compute_loss logf gmmI model g X_batch pi0 Kn).loss =
      lossFromProbs logf Kn X_batch.length pi0 (preRefitProbs gmmI model g X_batch) ∧
    (compute_loss logf gmmI model g X_batch pi0 Kn).gmmState = gmmI.fit (model X_batch) :=
  ⟨rfl, rfl⟩

/-- A concrete mixture instance distinguishing the state before and after the
refit: state 0 (incoming) predicts posterior 1, the refit state 1 predicts
posterior 1/2. -/
def gmmC1 : GMM ℕ :=
  { predict_proba := fun s _ => if s = 0 then [[1]] else [[1/2]]
    fit := fun _ => 1
    means_ := fun _ => [[0]]
    covariances_ := fun _ => [[1]] }

/-- Claim C1, counterexample: with the concrete mixture instance `gmmC1`, the
loss computed by `compute_loss` differs from the loss that would result were
the posteriors taken from the mixture refit on the current batch's network
output; so the posteriors entering the loss do not come from the
current-batch refit. -/
theorem c1_counterexample_posteriors_not_from_refit :
    (compute_loss id gmmC1 id 0 [[0]] [[1]] 1).loss ≠
      lossFromProbs id 1 1 [[1]] (postRefitProbs gmmC1 id [[0]]) := by
  with_unfolding_all exact of_decide_eq_true rfl

/-! ### Claim C10: the loss formula -/

/-- The rational value of a gamma row (valid when its denominator is
nonzero). -/
def gammaRowR (pr pb : List ℚ) : List ℚ :=
  (List.zipWith (· * ·) pr pb).map (fun a => a / rowDenom pr pb)

/-- The rational value of `compute_gamma` (valid when every row denominator is
nonzero). -/
def compute_gammaR (pi probs : Matrix) : Matrix :=
  if pi.length = 1 then probs.map (fun pb => gammaRowR (pi.headD []) pb)
  else List.zipWith gammaRowR pi probs

/-- Column sums of a rational matrix. -/
def colSumR (m : Matrix) : List ℚ :=
  (List.range (dimOf m)).map (fun k => (m.map (fun row => row.getD k 0)).sum)

/-- The loss as the spec states it for claim C10: `-(beta/K)` times the sum
over all samples and components of `log(pi * probs)`, with `pi` the updated
mixing-weight vector `N_k / M` obtained from the column sums of gamma and
`probs` the eps-clamped posterior matrix.  Stated as a second definition
following the claim's wording, to be compared with `compute_loss`. -/
def lossSpecFormula (logf : ℚ → ℚ) (Kn M : ℕ) (pi0 probs : Matrix) : ℚ :=
  let piNewR := (colSumR (compute_gammaR pi0 probs)).map (fun q => q / (M : ℚ));
  -(beta / (Kn : ℚ)) *
    (probs.map (fun row =>
      (List.zipWith (fun pk pik => logf (pk * pik)) piNewR row).sum)).sum

lemma getD_map_some (r : List ℚ) (k : ℕ) :
    (r.map some).getD k (some 0) = some (r.getD k 0) := by
  induction r generalizing k with
  | nil => simp
  | cons a t ih =>
    cases k with
    | zero => simp
    | succ k' => simp [ih k']

lemma gammaRow_eq_some (pr pb : List ℚ) (h : rowDenom pr pb ≠ 0) :
    gammaRow pr pb = (gammaRowR pr pb).map some := by
  unfold gammaRow gammaRowR
  rw [List.map_map]
  apply List.map_congr_left
  intro a _
  simp [Function.comp, dv, h]

lemma zip_gamma_eq_some : ∀ (pi probs : Matrix),
    (∀ d ∈ List.zipWith rowDenom pi probs, d ≠ 0) →
    List.zipWith gammaRow pi probs =
      (List.zipWith gammaRowR pi probs).map (fun r => r.map some) := by
  intro pi
  induction pi with
  | nil => intro probs _; simp
  | cons pr pit ih =>
    intro probs hden
    cases probs with
    | nil => simp
    | cons pb pbt =>
      simp only [List.zipWith_cons_cons, List.map_cons]
      rw [gammaRow_eq_some pr pb (hden _ (by simp [List.zipWith_cons_cons]))]
      rw [ih pbt (fun d hd => hden d (by simp [List.zipWith_cons_cons, hd]))]

lemma compute_gamma_eq_some (pi probs : Matrix)
    (hden : ∀ d ∈ gammaDenoms pi probs, d ≠ 0) :
    compute_gamma pi probs = (compute_gammaR pi probs).map (fun r => r.map some) := by
  by_cases h1 : pi.length = 1
  · simp only [compute_gamma, compute_gammaR, h1, if_true, List.map_map]
    apply List.map_congr_left
    intro pb hpb
    apply gammaRow_eq_some
    apply hden
    simp only [gammaDenoms, h1, if_true]
    exact List.mem_map_of_mem _ hpb
  · simp only [compute_gamma, compute_gammaR, h1, if_false]
    apply zip_gamma_eq_some
    intro d hd
    apply hden
    simpa only [gammaDenoms, h1, if_false] using hd

lemma colSumQ_map_some (m : Matrix) :
    colSumQ (m.map (fun r => r.map some)) = (colSumR m).map some := by
  unfold colSumQ colSumR
  have hnc : numCols (m.map (fun r => r.map some)) = dimOf m := by
    cases m with
    | nil => rfl
    | cons r t => simp [numCols, dimOf]
  rw [hnc, List.map_map]
  apply List.map_congr_left
  intro k _
  rw [List.map_map]
  have hrow : m.map ((fun row : List QN => row.getD k (some 0)) ∘ (fun r : List ℚ => r.map some))
      = (m.map (fun row => row.getD k 0)).map some := by
    rw [List.map_map]
    apply List.map_congr_left
    intro r _
    exact getD_map_some r k
  rw [hrow, qsum_map_some]
  rfl

lemma qsum_zip_log (logf : ℚ → ℚ) (pn : List ℚ) : ∀ (row : List ℚ),
    qsum ((List.zipWith (fun pk pik => qmul pk (some pik)) (pn.map some) row).map
        (Option.map logf))
      = some ((List.zipWith (fun pk pik => logf (pk * pik)) pn row).sum) := by
  induction pn with
  | nil => intro row; cases row <;> rfl
  | cons p pt ih =>
    intro row
    cases row with
    | nil => rfl
    | cons r rt =>
      have h1 : qsum ((List.zipWith (fun pk pik => qmul pk (some pik))
            ((p :: pt).map some) (r :: rt)).map (Option.map logf))
          = qadd (some (logf (p * r)))
              (qsum ((List.zipWith (fun pk pik => qmul pk (some pik)) (pt.map some) rt).map
                (Option.map logf))) := rfl
      rw [h1, ih rt]
      show some (logf (p * r) + _) = _
      rw [List.zipWith_cons_cons, List.sum_cons]

lemma qsum_map_eq_some {α : Type} (l : List α) (f : α → ℚ) (g : α → QN)
    (h : ∀ a ∈ l, g a = some (f a)) : qsum (l.map g) = some ((l.map f).sum) := by
  induction l with
  | nil => rfl
  | cons a t ih =>
    have hg : g a = some (f a) := h a (by simp)
    have hrest := ih (fun x hx => h x (by simp [hx]))
    show qadd (g a) (qsum (t.map g)) = some ((f a :: t.map f).sum)
    rw [hg, hrest, List.sum_cons]
    rfl

lemma lossFromProbs_eq_spec (logf : ℚ → ℚ) (Kn M : ℕ) (pi0 probs : Matrix)
    (hden : ∀ d ∈ gammaDenoms pi0 probs, d ≠ 0) :
    lossFromProbs logf Kn M pi0 probs = some (lossSpecFormula logf Kn M pi0 probs) := by
  simp only [lossFromProbs, lossSpecFormula]
  rw [compute_gamma_eq_some pi0 probs hden, colSumQ_map_some, List.map_map]
  have hcomp : (Option.map (fun q : ℚ => q / (M : ℚ)) ∘ some)
      = some ∘ (fun q : ℚ => q / (M : ℚ)) := by
    funext q
    rfl
  rw [hcomp]
  have hpn : List.map (some ∘ fun q : ℚ => q / (M : ℚ)) (colSumR (compute_gammaR pi0 probs))
      = ((colSumR (compute_gammaR pi0 probs)).map (fun q : ℚ => q / (M : ℚ))).map some :=
    (List.map_map _ _ _).symm
  rw [hpn]
  rw [qsum_map_eq_some probs
    (fun row => (List.zipWith (fun pk pik => logf (pk * pik))
      ((colSumR (compute_gammaR pi0 probs)).map (fun q : ℚ => q / (M : ℚ))) row).sum)
    (fun row => qsum ((List.zipWith (fun pk pik => qmul pk (some pik))
      (((colSumR (compute_gammaR pi0 probs)).map (fun q : ℚ => q / (M : ℚ))).map some)
        row).map (Option.map logf)))
    (fun row _ => qsum_zip_log logf _ row)]
  rfl

/-- Claim C10: the scalar training loss returned by `compute_loss` equals
`-(beta/K)` times the sum over all samples and all components of
`log(pi * probs)`, where `pi` is the updated mixing-weight vector `N_k / M`
obtained from the column sums of gamma and `probs` is the eps-clamped
posterior matrix (provided no gamma row denominator vanishes, in which case
the loss would be NaN). -/
theorem c10_loss_formula {σ : Type} (logf : ℚ → ℚ) (gmmI : GMM σ)
    (model : Matrix → Matrix) (g : σ) (X_batch : Matrix) (pi0 : Matrix) (Kn : ℕ)
    (hden : ∀ d ∈ gammaDenoms pi0 (preRefitProbs gmmI model g X_batch), d ≠ 0) :
    (compute_loss logf gmmI model g X_batch pi0 Kn).loss =
      some (lossSpecFormula logf Kn X_batch.length pi0
        (preRefitProbs gmmI model g X_batch)) := by
  have h0 : (compute_loss logf gmmI model g X_batch pi0 Kn).loss =
      lossFromProbs logf Kn X_batch.length pi0 (preRefitProbs gmmI model g X_batch) := rfl
  rw [h0]
  exact lossFromProbs_eq_spec logf Kn X_batch.length pi0 _ hden

/-- A concrete mixture instance for the C10 witness. -/
def gmmC10 : GMM Unit :=
  { predict_proba := fun _ _ => [[1/2, 1/2], [1/4, 1/2]]
    fit := fun _ => ()
    means_ := fun _ => [[0]]
    covariances_ := fun _ => [[1]] }

/-- Witness for C10 on a concrete batch of two samples with two components. -/
theorem c10_witness :
    (∀ d ∈ gammaDenoms [[1, 1], [1, 1]] (preRefitProbs gmmC10 id () [[0], [0]]), d ≠ 0) ∧
    (compute_loss id gmmC10 id () [[0], [0]] [[1, 1], [1, 1]] 2).loss =
      some (lossSpecFormula id 2 ([[(0 : ℚ)], [0]].length) [[1, 1], [1, 1]]
        (preRefitProbs gmmC10 id () [[0], [0]])) := by
  have hden : ∀ d ∈ gammaDenoms [[1, 1], [1, 1]] (preRefitProbs gmmC10 id () [[0], [0]]),
      d ≠ 0 := by
    with_unfolding_all exact of_decide_eq_true rfl
  exact ⟨hden, c10_loss_formula id gmmC10 id () [[0], [0]] [[1, 1], [1, 1]] 2 hden⟩

/-! ### Loading the embedding file (notebook cells `Utility functions` / `Training`)

```
def vectorize(row):
    return np.array(row.split(" ")).astype(float)

def skipgram2dict(skipgram):
    d = dict(skipgram[i].split(" ", 1) for i in range(len(skipgram)))
    d = {int(num): vectorize(v) for num, v in d.items()}
    return collections.OrderedDict(sorted(d.items()))

with open("../graphsage/cora/cora.embeddings", "r") as f:
    skipgram = f.readlines()
    skipgram.pop(0)
    dataset = skipgram2dict(skipgram)
    x       = torch.FloatTensor(list(dataset.values()))
```

String handling is embedded at the character-list level.  `parseFloat?` models
Python `float()` on the plain decimal forms (optional sign, digits, optional
fractional part) the deepwalk embedding file format produces; exponent and
inf/nan spellings are outside the modelled input language. -/

/-- Split a character list at every occurrence of `c` (Python `split(sep)`:
the empty input gives one empty field). -/
def splitOnChar (c : Char) : List Char → List (List Char)
  | [] => [[]]
  | a :: rest =>
    let r := splitOnChar c rest
    if a = c then [] :: r
    else
      match r with
      | [] => [[a]]
      | h :: t => (a :: h) :: t

/-- Python `split(sep, 1)` when a separator occurs: the field before the
first space and the remainder.  `none` models the no-separator case, in which
`dict(...)` raises over a length-1 sequence element. -/
def splitFirstAux : List Char → Option (List Char × List Char)
  | [] => none
  | a :: rest =>
    if a = ' ' then some ([], rest)
    else
      match splitFirstAux rest with
      | none => none
      | some (x, y) => some (a :: x, y)

/-- Numeric value of a digit string. -/
def digitsVal (l : List Char) : ℕ := l.foldl (fun acc c => acc * 10 + (c.toNat - 48)) 0

/-- Python `int()` on an optionally signed digit string. -/
def parseInt? (l : List Char) : Option ℤ :=
  match l with
  | '-' :: rest =>
    if rest ≠ [] ∧ rest.all Char.isDigit then some (-(digitsVal rest : ℤ)) else none
  | _ =>
    if l ≠ [] ∧ l.all Char.isDigit then some ((digitsVal l : ℤ)) else none

/-- Python `float()` on the plain decimal subset: optional minus sign, then
digits with at most one decimal point and at least one digit overall. -/
def parseFloat? (l : List Char) : Option ℚ :=
  let p : List Char → Option ℚ := fun body =>
    match splitOnChar '.' body with
    | [ip] =>
      if ip ≠ [] ∧ ip.all Char.isDigit then some ((digitsVal ip : ℚ)) else none
    | [ip, fp] =>
      if (ip ≠ [] ∨ fp ≠ []) ∧ ip.all Char.isDigit ∧ fp.all Char.isDigit then
        some ((digitsVal ip : ℚ) + (digitsVal fp : ℚ) / (10 : ℚ) ^ fp.length)
      else none
    | _ => none
  match l with
  | '-' :: rest => (p rest).map (fun q => -q)
  | _ => p l

/-- `vectorize(row)`: split on spaces and convert every field to a float; an
unconvertible field raises. -/
def vectorize (row : String) : Except String (List ℚ) :=
  match (splitOnChar ' ' row.toList).mapM parseFloat? with
  | some v => Except.ok v
  | none => Except.error "ValueError: could not convert string to float"

/-- Python-dict insertion: a repeated key overwrites in place, a fresh key
appends. -/
def dictInsert {α β : Type} [DecidableEq α] (k : α) (v : β) (d : List (α × β)) :
    List (α × β) :=
  if d.any (fun p => p.1 = k) then d.map (fun p => if p.1 = k then (k, v) else p)
  else d ++ [(k, v)]

/-- `skipgram2dict`: split each line at the first space, build the string
dict, convert keys with `int()` and values with `vectorize`, and sort by
node id. -/
def skipgram2dict (lines : List String) : Except String (List (ℤ × List ℚ)) :=
  match lines.mapM (fun s => splitFirstAux s.toList) with
  | none => Except.error "ValueError: dictionary update sequence element has length 1"
  | some pairs =>
    let d0 := pairs.foldl (fun acc p => dictInsert p.1 p.2 acc) []
    match d0.mapM (fun p =>
        match parseInt? p.1 with
        | none => Except.error "ValueError: invalid literal for int"
        | some k =>
          match vectorize (String.mk p.2) with
          | Except.error e => Except.error e
          | Except.ok v => Except.ok (k, v)) with
    | Except.error e => Except.error e
    | Except.ok d1 =>
      let d2 := d1.foldl (fun acc p => dictInsert p.1 p.2 acc) []
      Except.ok (d2.insertionSort (fun a b => a.1 ≤ b.1))

/-- `torch.FloatTensor(list(dataset.values()))`: stacking rows of unequal
lengths raises. -/
def toTensor (rows : List (List ℚ)) : Except String Matrix :=
  match rows with
  | [] => Except.ok []
  | r0 :: rest =>
    if rest.all (fun r => r.length = r0.length) then Except.ok (r0 :: rest)
    else Except.error "ValueError: expected sequence of consistent length"

/-- The whole loading cell, applied to the data lines (header already
popped): parse the file and build the dense tensor `x`. -/
def loadX (lines : List String) : Except String Matrix :=
  match skipgram2dict lines with
  | Except.error e => Except.error e
  | Except.ok d => toTensor (d.map (fun p => p.2))

/-- Claim C5, counterexample: a file whose data rows all have the same wrong
dimensionality (3 fields each, fewer than `D + 1 = 401`) loads without any
error — no malformed-input failure occurs before training. -/
theorem c5_counterexample_uniform_short_rows_load_ok :
    loadX ["0 1 2", "1 3 4"] = Except.ok [[1, 2], [3, 4]] ∧
    (splitOnChar ' ' ("0 1 2").toList).length < Ddim + 1 := by
  constructor
  · with_unfolding_all rfl
  · with_unfolding_all exact of_decide_eq_true rfl

lemma toTensor_ragged (rows : List (List ℚ))
    (h : rows.any (fun r1 => rows.any (fun r2 => r1.length ≠ r2.length)) = true) :
    (toTensor rows).isOk = false := by
  cases rows with
  | nil => simp at h
  | cons r0 rest =>
    by_cases hall : (rest.all fun r => decide (r.length = r0.length)) = true
    · exfalso
      simp only [List.any_eq_true, decide_eq_true_eq] at h
      obtain ⟨r1, h1, r2, h3, h4⟩ := h
      have len_eq : ∀ r ∈ r0 :: rest, r.length = r0.length := by
        intro r hr
        rcases List.mem_cons.mp hr with rfl | hr'
        · rfl
        · simpa using (List.all_eq_true.mp hall) r hr'
      have e1 := len_eq r1 h1
      have e2 := len_eq r2 h3
      omega
    · have ht : toTensor (r0 :: rest) =
          Except.error "ValueError: expected sequence of consistent length" := by
        show (if (rest.all fun r => decide (r.length = r0.length)) = true
            then Except.ok (r0 :: rest)
            else Except.error "ValueError: expected sequence of consistent length") = _
        rw [if_neg hall]
      rw [ht]
      rfl

/-- Claim C5, amended: loading fails before training for rows that are
locally malformed or mutually inconsistent — in particular, whenever the
parsed rows contain two vectors of different lengths, building the dense
tensor raises at load time.  But uniformly short rows (claim C5's premise
with every row equally short) load successfully, so no malformed-input error
is raised before training in that case. -/
theorem c5_amended_ragged_rows_fail_at_load (lines : List String)
    (d : List (ℤ × List ℚ)) (hparse : skipgram2dict lines = Except.ok d)
    (hragged : (d.map (fun p => p.2)).any
      (fun r1 => (d.map (fun p => p.2)).any (fun r2 => r1.length ≠ r2.length)) = true) :
    (loadX lines).isOk = false := by
  unfold loadX
  rw [hparse]
  exact toTensor_ragged _ hragged

/-- Witness for C5 (amended): a file with a 2-vector row and a 3-vector row
fails at load. -/
theorem c5_amended_witness :
    skipgram2dict ["0 1 2", "1 3 4 5"] = Except.ok [(0, [1, 2]), (1, [3, 4, 5])] ∧
    (([(((0 : ℤ), [(1 : ℚ), 2])), (1, [3, 4, 5])].map (fun p => p.2)).any
      (fun r1 => ([(((0 : ℤ), [(1 : ℚ), 2])), (1, [3, 4, 5])].map (fun p => p.2)).any
        (fun r2 => r1.length ≠ r2.length)) = true) ∧
    (loadX ["0 1 2", "1 3 4 5"]).isOk = false := by
  have h1 : skipgram2dict ["0 1 2", "1 3 4 5"] = Except.ok [(0, [1, 2]), (1, [3, 4, 5])] := by
    with_unfolding_all rfl
  have h2 : (([(((0 : ℤ), [(1 : ℚ), 2])), (1, [3, 4, 5])].map (fun p => p.2)).any
      (fun r1 => ([(((0 : ℤ), [(1 : ℚ), 2])), (1, [3, 4, 5])].map (fun p => p.2)).any
        (fun r2 => r1.length ≠ r2.length)) = true) := by
    with_unfolding_all rfl
  exact ⟨h1, h2, c5_amended_ragged_rows_fail_at_load ["0 1 2", "1 3 4 5"] _ h1 h2⟩

/-! ### Claim C3: gradient flow through a training step

The autograd graph of the training-loop loss (notebook cell `Training`) is
modelled at the dataflow level: each tensor expression carries the set of
parameter groups it is differentiably connected to.  `toNumpyAndBack` models
a round trip through numpy followed by the `torch.FloatTensor(...)`
constructor (as in `probs = torch.FloatTensor(gmm.predict_proba(X)).clamp(min=eps)`):
the constructor builds a fresh leaf tensor, severing the autograd graph. -/

/-- Tensor dataflow with autograd provenance. -/
inductive TExpr where
  | leaf (params : Finset String)
  | applyModel (params : Finset String) (x : TExpr)
  | detach (x : TExpr)
  | toNumpyAndBack (x : TExpr)
  | binop (a b : TExpr)
  | unop (a : TExpr)

/-- The parameter groups a tensor expression is differentiably connected to. -/
def TExpr.deps : TExpr → Finset String
  | .leaf ps => ps
  | .applyModel ps x => ps ∪ x.deps
  | .detach _ => ∅
  | .toNumpyAndBack _ => ∅
  | .binop a b => a.deps ∪ b.deps
  | .unop a => a.deps

/-- `Tensor.backward` raises when the tensor does not require grad (is
connected to no parameters). -/
def backwardE (e : TExpr) : Except String Unit :=
  if e.deps = ∅ then
    Except.error "RuntimeError: element 0 of tensors does not require grad"
  else Except.ok ()

/-- The input batch: data, not a parameter. -/
def xBatchE : TExpr := .leaf ∅

/-- `X = model(X_batch)`: the embedding-network output, connected to the
network parameters. -/
def embNetOutE : TExpr := .applyModel {"EmbeddingNetwork"} xBatchE

/-- `pi = 1 - normalize(D_ij)` inside `KMeans`: built from
`x_i = torch.clone(x[:, None, :]).detach()` and the likewise detached
centroids. -/
def kmeansPiE : TExpr := .unop (.binop (.detach xBatchE) (.detach xBatchE))

/-- `probs = torch.FloatTensor(gmm.predict_proba(X)).clamp(min=eps)`: the
network output runs through sklearn and numpy and comes back as a fresh
leaf. -/
def probsE : TExpr := .unop (.toNumpyAndBack embNetOutE)

/-- `gamma_numerator = pi * probs`. -/
def numE : TExpr := .binop kmeansPiE probsE

/-- `gamma = num / num.sum(dim=1)`. -/
def gammaE : TExpr := .binop numE (.unop numE)

/-- `N = gamma.sum(dim=0)` and `pi = N / X_batch.size(0)`. -/
def piNewE : TExpr := .unop (.unop gammaE)

/-- `loss = -(beta / K) * sum(sum(log(pi * probs)))`. -/
def lossE : TExpr := .unop (.unop (.binop piNewE probsE))

/-- Claim C3 records a code bug: the loss is differentiably connected to no
parameters at all.  The network output does carry the EmbeddingNetwork
parameters, but the posteriors re-enter the loss through the graph-severing
`torch.FloatTensor(numpy)` round trip, so `loss.backward()` raises and no
parameter — neither of the mixture nor of the network — can receive a
gradient.  (The claim is right that mixture parameters get no gradients, and
the spec's intent that the network parameters do is violated by the code.) -/
theorem c3_loss_graph_disconnected :
    lossE.deps = ∅ ∧
    embNetOutE.deps = {"EmbeddingNetwork"} ∧
    backwardE lossE =
      Except.error "RuntimeError: element 0 of tensors does not require grad" := by
  refine ⟨rfl, ?_, ?_⟩
  · rfl
  · with_unfolding_all rfl

/-! ### Claim C4: the per-epoch reported metric

```
print("Training loss (in-iteration): \t{:.6f}".format(
    np.mean(train_loss[-len(dataset) // batch_size :]))
)
```

Python `-len(dataset) // batch_size` is floor division of a negative, i.e.
`-ceil(len(dataset) / batch_size)`, and a negative slice start counts from
the end of the list. -/

/-- `ceil(n / b)` on naturals. -/
def ceilDiv (n b : ℕ) : ℕ := (n + b - 1) / b

/-- Python list slicing `xs[i:]` with an integer start (a negative start
counts from the end; out-of-range starts clamp). -/
def pySliceFrom (xs : List ℚ) (i : ℤ) : List ℚ :=
  if i < 0 then xs.drop (((xs.length : ℤ) + i).toNat)
  else xs.drop i.toNat

/-- `np.mean`. -/
def mean (xs : List ℚ) : ℚ := xs.sum / (xs.length : ℚ)

/-- The reported metric: `np.mean(train_loss[-len(dataset) // batch_size :])`
(Python `//` on integers is `Int.fdiv`). -/
def reportedMetric (losses : List ℚ) (datasetSize batchSize : ℕ) : ℚ :=
  mean (pySliceFrom losses (Int.fdiv (-(datasetSize : ℤ)) (batchSize : ℤ)))

/-- The last `m` recorded entries. -/
def lastN (xs : List ℚ) (m : ℕ) : List ℚ := xs.drop (xs.length - m)

lemma neg_fdiv_eq_neg_ceilDiv (n b : ℕ) (hb : 0 < b) :
    Int.fdiv (-(n : ℤ)) (b : ℤ) = -((ceilDiv n b : ℕ) : ℤ) := by
  have hb' : (0 : ℤ) < (b : ℤ) := by exact_mod_cast hb
  obtain ⟨c, hc⟩ : ∃ c, ceilDiv n b = c := ⟨_, rfl⟩
  obtain ⟨r, hr⟩ : ∃ r, (n + b - 1) % b = r := ⟨_, rfl⟩
  have hdm : b * c + r = n + b - 1 := by
    rw [← hc, ← hr]
    exact Nat.div_add_mod _ _
  have hmod : r < b := by
    rw [← hr]
    exact Nat.mod_lt _ hb
  have h1 : 1 ≤ n + b := by omega
  zify [h1] at hdm
  zify at hmod
  have hr0 : (0 : ℤ) ≤ (r : ℤ) := Int.natCast_nonneg _
  rw [Int.fdiv_eq_ediv _ (le_of_lt hb'), hc]
  have key := (@Int.ediv_emod_unique (-(n : ℤ)) ((b : ℤ))
      ((b : ℤ) * ((c : ℕ) : ℤ) - (n : ℤ)) (-((c : ℕ) : ℤ)) hb').mpr
  exact (key ⟨by ring, by linarith, by linarith⟩).1

/-- Claim C4: the reported training metric equals the mean of the recorded
per-batch losses over the last `ceil(dataset_size / batch_size)` entries,
whenever that many batches have been recorded (true from the first epoch on,
since each epoch contributes exactly that many batches). -/
theorem c4_reported_metric_last_ceil_batches (losses : List ℚ) (n b : ℕ)
    (hn : 0 < n) (hb : 0 < b) (hfit : ceilDiv n b ≤ losses.length) :
    reportedMetric losses n b = mean (lastN losses (ceilDiv n b)) := by
  unfold reportedMetric
  rw [neg_fdiv_eq_neg_ceilDiv n b hb]
  unfold pySliceFrom lastN
  have hcpos : 0 < ceilDiv n b := by
    unfold ceilDiv
    apply Nat.div_pos (by omega) hb
  rw [if_pos (by omega : -((ceilDiv n b : ℕ) : ℤ) < 0)]
  congr 2
  omega

/-- Witness for C4 at the notebook's constants (dataset size 2708, batch size
300): `-2708 // 300 = -10 = -ceil(2708/300)`, so the metric averages the last
10 recorded losses. -/
theorem c4_witness :
    0 < 2708 ∧ 0 < 300 ∧
    ceilDiv 2708 300 ≤ ([2, 2, 2, 1, 1, 1, 1, 1, 1, 1, 1, 1] : List ℚ).length ∧
    reportedMetric [2, 2, 2, 1, 1, 1, 1, 1, 1, 1, 1, 1] 2708 300 =
      mean (lastN [2, 2, 2, 1, 1, 1, 1, 1, 1, 1, 1, 1] (ceilDiv 2708 300)) :=
  ⟨by decide, by decide, by decide,
    c4_reported_metric_last_ceil_batches [2, 2, 2, 1, 1, 1, 1, 1, 1, 1, 1, 1] 2708 300
      (by decide) (by decide) (by decide)⟩

end ComEmb
